import Mathlib

/-!
Verification of the dividend forecast engine (`DividendParser.forecast_dividends`
in `dividend_parser.py`) against its natural-language specification.

The embedding below translates the per-ticker analysis loop, the activity gate,
the four fallback forecasting strategies, the date-clamping rule and the final
merge/sort of `forecast_dividends` into executable Lean definitions.  Dividend
amounts are modelled as exact rationals (`Rat`), records as structures with
`Option` fields for the nullable columns of the cleaned dataframe, and Python
dictionaries as insertion-ordered association lists (CPython dictionaries
iterate in insertion order).
-/

set_option maxRecDepth 8192

/-- Calendar date, the payload of a Python `datetime` value (year, month, day). -/
structure Date where
  y : Int
  m : Int
  d : Int
deriving DecidableEq, Repr

/-- One row of the cleaned dataset `self.clean_df` as consumed by
`forecast_dividends`: ticker, display name, optional record date, numeric
dividend amount, optional fiscal year and quarter, and the provenance code
`forecast_type` (0 = actual, 1 = site forecast). -/
structure Row where
  ticker : String
  name : String
  recordDate : Option Date
  amount : Rat
  year : Option Int
  quarter : Option Int
  forecastType : Nat
deriving DecidableEq, Repr

/-- The derived `month` column of the dataframe: the month of the record date
when a date is present (`df['month']`, built at line 817 of the source). -/
def Row.month (r : Row) : Option Int :=
  r.recordDate.map (fun dt => dt.m)

/-- Strategy label attached to historical actual rows (line 846). -/
def actualLabel : String := "0 - Фактические данные"

/-- Strategy label attached to historical site-forecast rows (line 846). -/
def siteLabel : String := "1 - Прогноз сайта"

/-- Label of the quarterly-history strategy, `"quarterly-data"` in the spec. -/
def quarterlyLabel : String := "3.1 - Квартальные данные"

/-- Label of the anniversary-date strategy, `"payment-dates"` in the spec. -/
def paymentDatesLabel : String := "3.2 - Даты выплат"

/-- Label of the annual-average strategy, `"annual-data"` in the spec. -/
def annualLabel : String := "3.3 - Годовые данные"

/-- Label of the inactive-company branch, `"inactive-company"` in the spec. -/
def inactiveLabel : String := "3.4 - Неактивная компания"

/-- Label of the emergency strategy, `"emergency"` in the spec. -/
def emergencyLabel : String := "3.4 - Аварийная стратегия"

/-- The leap-year test used verbatim in every clamping branch of the source:
`year % 4 == 0 and (year % 100 != 0 or year % 400 == 0)`. -/
def isLeap (y : Int) : Bool :=
  y % 4 == 0 && (y % 100 != 0 || y % 400 == 0)

/-- Number of days of month `m` in year `y` (Gregorian calendar), the rule
under which Python `datetime(y, m, d)` accepts or rejects a day number. -/
def daysInMonth (y m : Int) : Int :=
  if m = 2 then (if isLeap y then 29 else 28)
  else if m = 4 ∨ m = 6 ∨ m = 9 ∨ m = 11 then 30
  else 31

/-- Validity test of a (year, month, day) triple: whether `datetime(y, m, d)`
succeeds rather than raising `ValueError`. -/
def validDateB (y m d : Int) : Bool :=
  decide (1 ≤ m ∧ m ≤ 12 ∧ 1 ≤ d ∧ d ≤ daysInMonth y m)

/-- Result of `datetime(y, m, 1) - timedelta(days=1)` for `1 < m ≤ 12`:
the last day of the previous month of the same year. -/
def lastDayPrevMonth (y m : Int) : Date :=
  ⟨y, m - 1, daysInMonth y (m - 1)⟩

/-- Date synthesis with the source's clamping rule: `datetime(y, m, d)` and, on
`ValueError`, the except-branch repeated at every forecast site of the source
(February → Feb 29/28 by leap year, 30-day months → day 30, otherwise the last
day of the previous month, or Dec 31 of the previous year when `m = 1`). -/
def makeDate (y m d : Int) : Date :=
  if validDateB y m d then ⟨y, m, d⟩
  else if m = 2 ∧ 28 < d then (if isLeap y then ⟨y, 2, 29⟩ else ⟨y, 2, 28⟩)
  else if 30 < d ∧ (m = 4 ∨ m = 6 ∨ m = 9 ∨ m = 11) then ⟨y, m, 30⟩
  else if 1 < m then lastDayPrevMonth y m
  else ⟨y - 1, 12, 31⟩

/-- Python's `round(x, 2)` on the exact rational values arising here: the
nearest multiple of 1/100, halves upward.  (CPython rounds float halves to
even; no computation in the verified claims lands on a half.) -/
def round2 (q : Rat) : Rat :=
  ((⌊q * 100 + 1 / 2⌋ : Int) : Rat) / 100

/-- The future horizon `range(current_year + 1, current_year + years + 1)`. -/
def futureYears (currentYear : Int) (years : Nat) : List Int :=
  (List.range years).map (fun (i : Nat) => currentYear + 1 + (i : Int))

/-- Stable insertion of `a` into `l`: `a` goes after every element `b` with
`le b a`.  Folding this over a list is a stable sort. -/
def insertLe {α : Type} (le : α → α → Bool) (a : α) : List α → List α
  | [] => [a]
  | b :: l => if le b a then b :: insertLe le a l else a :: b :: l

/-- Stable sort by the total preorder `le`; for a total preorder the output of
any stable sort (in particular the stable lexicographic sort performed by
`DataFrame.sort_values` with several columns) is this list. -/
def sortLe {α : Type} (le : α → α → Bool) (l : List α) : List α :=
  l.foldl (fun acc x => insertLe le x acc) []

/-- First-occurrence deduplication (the membership skeleton of a CPython set
or of the distinct group keys of a grouping). -/
def dedupKeep {α : Type} [DecidableEq α] (l : List α) : List α :=
  l.foldl (fun acc x => if x ∈ acc then acc else acc ++ [x]) []

/-- Boolean `≤` on `Int`. -/
def intLeB (a b : Int) : Bool := decide (a ≤ b)

/-- Model of `max(set(xs), key=xs.count)` from the source: a CPython set of
small non-negative integers (months 1–12, quarters 1–4) iterates in ascending
order, and `max` keeps the first element attaining the maximal count. -/
def mostCommon (xs : List Int) : Int :=
  match sortLe intLeB (dedupKeep xs) with
  | [] => 0
  | v :: vs => vs.foldl (fun best x => if xs.count best < xs.count x then x else best) v

/-- Append `a` to the group of key `k` in an insertion-ordered association
list, creating the group at the end if absent — a CPython dict of lists. -/
def upsert {κ : Type} [DecidableEq κ] (k : κ) (a : Row) :
    List (κ × List Row) → List (κ × List Row)
  | [] => [(k, [a])]
  | (k0, v) :: rest =>
    if k0 = k then (k0, v ++ [a]) :: rest else (k0, v) :: upsert k a rest

/-- Overwrite-or-append for an insertion-ordered association list — a plain
CPython dict assignment. -/
def setKey {κ : Type} [DecidableEq κ] (k : κ) (a : Row) :
    List (κ × Row) → List (κ × Row)
  | [] => [(k, a)]
  | (k0, v) :: rest =>
    if k0 = k then (k0, a) :: rest else (k0, v) :: setKey k a rest

/-- Lookup in an association list (`dict.get`). -/
def lookupKey {κ : Type} [DecidableEq κ] {β : Type} :
    List (κ × β) → κ → Option β
  | [], _ => none
  | (k0, v) :: rest, k => if k0 = k then some v else lookupKey rest k

/-- Recent-activity membership of a row, as in the claims: an actual record
whose (known) year is at least the window's lower bound. -/
def yearAtLeast (r : Row) (yMin : Int) : Bool :=
  match r.year with
  | some yy => decide (yMin ≤ yy)
  | none => false

/-- The per-ticker accumulators built by the analysis loop (source lines
866–935): `ticker_quarters`, `site_forecasts`, `all_payments`,
`recent_payments_sum` and `annual_payment_dates`. -/
structure Analysis where
  quarters : List (Int × List Row)
  siteForecasts : List ((Int × Int) × Row)
  allPayments : List Row
  recentSum : Rat
  annDates : List ((Int × Int) × List Row)
deriving Repr

/-- Empty accumulators. -/
def Analysis.init : Analysis := ⟨[], [], [], 0, []⟩

/-- One iteration of the analysis loop over a row of the ticker's group
(source lines 881–935).  Actual rows with a known year contribute to
`all_payments` / `recent_payments_sum` / `annual_payment_dates` when their
amount is positive and to `ticker_quarters` whenever their quarter is known;
site-forecast rows with known year and quarter are stored keyed by
(year, quarter).  (`getD` below is only evaluated under `isSome`.) -/
def stepRow (recentActivityYear : Int) (st : Analysis) (r : Row) : Analysis :=
  if r.forecastType = 0 ∧ r.year.isSome then
    let st1 :=
      if 0 < r.amount then
        { st with
          allPayments := st.allPayments ++ [r]
          recentSum := st.recentSum +
            (if yearAtLeast r recentActivityYear then r.amount else 0)
          annDates :=
            match r.recordDate with
            | some dt => upsert (dt.m, dt.d) r st.annDates
            | none => st.annDates }
      else st
    match r.quarter with
    | some q => { st1 with quarters := upsert q r st1.quarters }
    | none => st1
  else if r.forecastType = 1 then
    match r.year, r.quarter with
    | some yy, some qq => { st with siteForecasts := setKey (yy, qq) r st.siteForecasts }
    | _, _ => st
  else st

/-- The whole analysis loop over one ticker's rows. -/
def analyze (recentActivityYear : Int) (rows : List Row) : Analysis :=
  rows.foldl (stepRow recentActivityYear) Analysis.init

/-- An output record of `forecast_dividends` over the columns shared by the
historical dataframe and the forecast dataframe (the merge at lines
1390–1398 keeps exactly the common columns). -/
structure FRec where
  ticker : String
  name : String
  recordDate : Option Date
  amount : Rat
  year : Option Int
  quarter : Option Int
  month : Option Int
  forecastType : Nat
  strategy : String
deriving DecidableEq, Repr

/-- A freshly created forecast record: date always present, `month` the date's
month, provenance code 2 ("our forecast"), tagged with its strategy label. -/
def mkForecast (t n : String) (dt : Date) (amt : Rat) (yy : Int)
    (q : Option Int) (label : String) : FRec :=
  { ticker := t, name := n, recordDate := some dt, amount := amt,
    year := some yy, quarter := q, month := some dt.m, forecastType := 2,
    strategy := label }

/-- The fixed anniversary dates `quarterly_dates`: (quarter, month, day). -/
def quarterlyDates : List (Int × Int × Int) :=
  [(1, 3, 15), (2, 6, 15), (3, 9, 15), (4, 12, 15)]

/-- Zero-amount forecasts at the fixed anniversary dates, one per quarter per
future year — the shared mechanics of the inactive-company branch (lines
941–1001) and the emergency strategy (lines 1320–1382), differing only in
label. -/
def zeroQuarterForecasts (label : String) (cy : Int) (years : Nat)
    (t n : String) : List FRec :=
  quarterlyDates.flatMap (fun qmd =>
    (futureYears cy years).map (fun fy =>
      mkForecast t n (makeDate fy qmd.2.1 qmd.2.2) 0 fy (some qmd.1) label))

/-- One record of the quarterly-history strategy for quarter `q` with history
`history` and future year `fy` (lines 1017–1105): quarter average amount,
most frequent month (current month if no month data), truncated-mean day in
that month (15 if none), overridden verbatim by a site forecast keyed
(fy, q) when that site record has a record date.  Here `recordDate = none`
models a missing date stored as a Python `None` (falsy at line 1059) — the
realization pandas keeps only when the whole record-date column is missing
(object dtype), in which case the dateless-site branch falls through to the
computed values.  Whenever the column holds at least one real date, a
missing entry is stored as `NaT` instead, which is truthy; that realization
is `quarterPointNaT` below. -/
def quarterForecastRec (a : Analysis) (cm : Int) (t n : String) (q : Int)
    (history : List Row) (fy : Int) : FRec :=
  let avg := (history.map (fun r => r.amount)).sum / (history.length : Rat)
  let months := history.filterMap (fun r => r.month)
  let mcMonth := if months.isEmpty then cm else mostCommon months
  let days := history.filterMap (fun r =>
    match r.recordDate with
    | some dt => if dt.m = mcMonth then some dt.d else none
    | none => none)
  let mcDay := if days.isEmpty then 15 else (days.sum).fdiv (days.length : Int)
  match lookupKey a.siteForecasts (fy, q) with
  | some sf =>
    match sf.recordDate with
    | some sdt => mkForecast t n sdt sf.amount fy (some q) quarterlyLabel
    | none => mkForecast t n (makeDate fy mcMonth mcDay) (round2 avg) fy (some q) quarterlyLabel
  | none => mkForecast t n (makeDate fy mcMonth mcDay) (round2 avg) fy (some q) quarterlyLabel

/-- Strategy 3.1, quarterly-history: one record per stored quarter per future
year (the `if not history: continue` guard of line 1018 included). -/
def quarterlyForecasts (a : Analysis) (cy cm : Int) (years : Nat)
    (t n : String) : List FRec :=
  a.quarters.flatMap (fun qh =>
    if qh.2.isEmpty then []
    else (futureYears cy years).map (quarterForecastRec a cm t n qh.1 qh.2))

/-- One (quarter `q`, future year `fy`) data point of the quarterly-history
strategy with a stored missing record date modeled as pandas `NaT` — the
realization whenever the record-date column of the frame holds at least one
real date.  `NaT` is truthy, so a site forecast keyed (fy, q) always takes
the site branch of line 1059; when the site record's date is missing,
`forecast_date.strftime` at line 1095 then raises on `NaT` and the per-point
handler at lines 1107–1109 skips the data point (`none` here): no record is
emitted for this (quarter, year). -/
def quarterPointNaT (a : Analysis) (cm : Int) (t n : String) (q : Int)
    (history : List Row) (fy : Int) : Option FRec :=
  let avg := (history.map (fun r => r.amount)).sum / (history.length : Rat)
  let months := history.filterMap (fun r => r.month)
  let mcMonth := if months.isEmpty then cm else mostCommon months
  let days := history.filterMap (fun r =>
    match r.recordDate with
    | some dt => if dt.m = mcMonth then some dt.d else none
    | none => none)
  let mcDay := if days.isEmpty then 15 else (days.sum).fdiv (days.length : Int)
  match lookupKey a.siteForecasts (fy, q) with
  | some sf =>
    match sf.recordDate with
    | some sdt => some (mkForecast t n sdt sf.amount fy (some q) quarterlyLabel)
    | none => none
  | none =>
    some (mkForecast t n (makeDate fy mcMonth mcDay) (round2 avg) fy (some q)
      quarterlyLabel)

/-- Strategy 3.1 under the `NaT` realization of missing record dates: as
`quarterlyForecasts`, but with the data points skipped by the per-point
exception handler dropped from the output. -/
def quarterlyForecastsNaT (a : Analysis) (cy cm : Int) (years : Nat)
    (t n : String) : List FRec :=
  a.quarters.flatMap (fun qh =>
    if qh.2.isEmpty then []
    else (futureYears cy years).filterMap (quarterPointNaT a cm t n qh.1 qh.2))

/-- One record of the anniversary-date strategy for the (month, day) group
`md` (lines 1112–1177): mean amount of the group, most frequent recorded
quarter or the quarter derived from the month, clamped projected date. -/
def annivForecastRec (t n : String) (md : Int × Int) (payments : List Row)
    (fy : Int) : FRec :=
  let avg := (payments.map (fun r => r.amount)).sum / (payments.length : Rat)
  let qs := payments.filterMap (fun r => r.quarter)
  let q := if qs.isEmpty then (md.1 - 1).fdiv 3 + 1 else mostCommon qs
  mkForecast t n (makeDate fy md.1 md.2) (round2 avg) fy (some q) paymentDatesLabel

/-- Strategy 3.2, anniversary dates: one record per (month, day) group per
future year. -/
def paymentDatesForecasts (a : Analysis) (cy : Int) (years : Nat)
    (t n : String) : List FRec :=
  a.annDates.flatMap (fun mdp =>
    (futureYears cy years).map (annivForecastRec t n mdp.1 mdp.2))

/-- Strategy 3.3, annual average: the overall mean of all actual payments,
split into four equal quarterly installments at the fixed anniversary dates
(lines 1183–1244).  The single-annual fallback of lines 1249–1318 runs only
when this computation raises, which the total model cannot. -/
def annualForecasts (a : Analysis) (cy : Int) (years : Nat)
    (t n : String) : List FRec :=
  let avg := (a.allPayments.map (fun r => r.amount)).sum / (a.allPayments.length : Rat)
  quarterlyDates.flatMap (fun qmd =>
    (futureYears cy years).map (fun fy =>
      mkForecast t n (makeDate fy qmd.2.1 qmd.2.2) (round2 (avg / 4)) fy
        (some qmd.1) annualLabel))

/-- Eligibility of the quarterly-history strategy (lines 1004–1013): some
quarter holds more than one record, and the security has more than one
positive actual payment in total. -/
def hasQuarterlyData (a : Analysis) : Bool :=
  (a.quarters.any (fun qh => 1 < qh.2.length)) && (1 < a.allPayments.length)

/-- The forecast chain for one ticker's group (lines 938–1384): the activity
gate classifies the security inactive when the recent positive actual
payments sum to zero; otherwise the strategies run in order, each only when
every earlier one contributed no record (`ticker_forecast_count == 0`). -/
def forecastTicker (cy cm : Int) (years : Nat) (historyYears : Int)
    (t n : String) (rows : List Row) : List FRec :=
  let a := analyze (cy - historyYears) rows
  if a.recentSum = 0 then
    zeroQuarterForecasts inactiveLabel cy years t n
  else
    let c1 := if hasQuarterlyData a then quarterlyForecasts a cy cm years t n else []
    let c2 := if c1.length = 0 ∧ a.annDates ≠ [] then
        paymentDatesForecasts a cy years t n else []
    let c3 := if c1.length = 0 ∧ c2.length = 0 ∧ 0 < a.allPayments.length then
        annualForecasts a cy years t n else []
    let c4 := if c1.length = 0 ∧ c2.length = 0 ∧ c3.length = 0 then
        zeroQuarterForecasts emergencyLabel cy years t n else []
    c1 ++ c2 ++ c3 ++ c4

/-- Projection of a historical row onto the merged output columns, with the
provenance label of line 845–847 attached. -/
def histRec (r : Row) : FRec :=
  { ticker := r.ticker, name := r.name, recordDate := r.recordDate,
    amount := r.amount, year := r.year, quarter := r.quarter,
    month := r.month, forecastType := r.forecastType,
    strategy := if r.forecastType = 0 then actualLabel else siteLabel }

/-- Boolean `≤` on `String` (Unicode code point order, as in both Python and
pandas). -/
def strLeB (a b : String) : Bool := decide (a ≤ b)

/-- The group keys of `df.groupby('ticker')`: distinct tickers in ascending
order (pandas sorts group keys by default). -/
def tickersOf (rows : List Row) : List String :=
  sortLe strLeB (dedupKeep (rows.map (fun r => r.ticker)))

/-- The rows of one ticker's group, in original order. -/
def groupOf (rows : List Row) (t : String) : List Row :=
  rows.filter (fun r => r.ticker == t)

/-- `group['name'].iloc[0]`. -/
def groupName (g : List Row) : String :=
  (g.head?.map (fun r => r.name)).getD ""

/-- All generated forecast records, per ticker group in group-key order —
the contents of `forecast_data` after the grouping loop. -/
def forecastAll (cy cm : Int) (years : Nat) (historyYears : Int)
    (rows : List Row) : List FRec :=
  (tickersOf rows).flatMap (fun t =>
    forecastTicker cy cm years historyYears t (groupName (groupOf rows t))
      (groupOf rows t))

/-- Boolean `≤` on optional dates: lexicographic on (year, month, day),
missing dates sorting after all present dates (`na_position='last'`). -/
def dateLeB : Option Date → Option Date → Bool
  | none, none => true
  | none, some _ => false
  | some _, none => true
  | some a, some b =>
    decide (a.y < b.y ∨ (a.y = b.y ∧ (a.m < b.m ∨ (a.m = b.m ∧ a.d ≤ b.d))))

/-- The total preorder of `result_df.sort_values(['ticker', 'record_date'])`:
ticker ascending, then record date ascending with missing dates last. -/
def recLeB (x z : FRec) : Bool :=
  if x.ticker = z.ticker then dateLeB x.recordDate z.recordDate
  else decide (x.ticker < z.ticker)

/-- The stable multi-column sort of the merged output. -/
def sortRecs (l : List FRec) : List FRec := sortLe recLeB l

/-- The merged output of `forecast_dividends` (lines 1390–1409): historical
rows projected onto the common columns, concatenated with the generated
forecasts and sorted by (ticker, record date); when no forecast was
generated the historical rows are returned unsorted (line 1407). -/
def forecastDividends (cy cm : Int) (years : Nat) (historyYears : Int)
    (rows : List Row) : List FRec :=
  let hist := rows.map histRec
  let fc := forecastAll cy cm years historyYears rows
  if fc.isEmpty then hist else sortRecs (hist ++ fc)

/-- The claims' activity sum: total amount of ACTUAL records whose year lies
inside the recent-activity window. -/
def claimRecentSum (rows : List Row) (yMin : Int) : Rat :=
  ((rows.filter (fun r => r.forecastType == 0 && yearAtLeast r yMin)).map
    (fun r => r.amount)).sum

/-- Gregorian leap year as worded in claim C4: divisible by 4 and not by 100
unless by 400. -/
def leapSpec (y : Int) : Prop := 4 ∣ y ∧ (¬(100 ∣ y) ∨ 400 ∣ y)

instance (y : Int) : Decidable (leapSpec y) := by
  unfold leapSpec
  infer_instance

/-- The date-clamping rule exactly as claim C4 words it. -/
def clampSpec (y m d : Int) : Date :=
  if m = 2 ∧ 28 < d then (if leapSpec y then ⟨y, 2, 29⟩ else ⟨y, 2, 28⟩)
  else if 30 < d ∧ (m = 4 ∨ m = 6 ∨ m = 9 ∨ m = 11) then ⟨y, m, 30⟩
  else if m = 1 then ⟨y - 1, 12, 31⟩
  else ⟨y, m - 1, daysInMonth y (m - 1)⟩

/-- A row collected into `all_payments`: actual, known year, positive amount. -/
def isPay (r : Row) : Bool :=
  r.forecastType == 0 && r.year.isSome && decide (0 < r.amount)

/-- A row collected into `annual_payment_dates[(m, d)]`: a payment dated on
that (month, day) anniversary. -/
def inAnn (md : Int × Int) (r : Row) : Bool :=
  isPay r && (r.recordDate.map (fun dt => (dt.m, dt.d)) == some md)

/-- Contribution of one row to `recent_payments_sum`. -/
def rowContrib (yMin : Int) (r : Row) : Rat :=
  if isPay r && yearAtLeast r yMin then r.amount else 0

/-- Appending a batch to an optional dict-of-lists entry. -/
def optAppend (o : Option (List Row)) (sel : List Row) : Option (List Row) :=
  if sel.isEmpty then o else some (o.getD [] ++ sel)

/-- The end-to-end scenario of claim C5: ACTUAL Q1 payments 5.0 (2022),
7.0 (2023) and 6.0 (2024) for ticker "ABC". -/
def c5rows : List Row :=
  [⟨"ABC", "ABC Corp", some ⟨2022, 3, 10⟩, 5, some 2022, some 1, 0⟩,
   ⟨"ABC", "ABC Corp", some ⟨2023, 3, 12⟩, 7, some 2023, some 1, 0⟩,
   ⟨"ABC", "ABC Corp", some ⟨2024, 3, 14⟩, 6, some 2024, some 1, 0⟩]

/-- Scenario refuting claim C3: two dated ACTUAL Q2 payments of 10.0 and a
SITE_FORECAST record keyed (2026, 2) with amount 99 but no record date (as
the source's main-table rows can be).  The two dated rows put real dates in
the frame's record-date column, so the site row's missing date is stored as
`NaT` and the `quarterPointNaT` realization applies. -/
def c3rows : List Row :=
  [⟨"S", "S Co", some ⟨2023, 5, 20⟩, 10, some 2023, some 2, 0⟩,
   ⟨"S", "S Co", some ⟨2024, 5, 20⟩, 10, some 2024, some 2, 0⟩,
   ⟨"S", "S Co", none, 99, some 2026, some 2, 1⟩]

/-- Witness scenario for the amended C3: as `c3rows`, but the site forecast
keyed (2026, 2) carries a record date. -/
def c3vrows : List Row :=
  [⟨"V", "V Co", some ⟨2023, 5, 20⟩, 10, some 2023, some 2, 0⟩,
   ⟨"V", "V Co", some ⟨2024, 5, 21⟩, 10, some 2024, some 2, 0⟩,
   ⟨"V", "V Co", some ⟨2026, 5, 18⟩, 99, some 2026, some 2, 1⟩]

/-! ### Generic lemmas about the stable insertion sort -/

section SortLemmas

variable {α : Type} (le : α → α → Bool)

lemma mem_insertLe (a : α) (l : List α) (x : α) :
    x ∈ insertLe le a l ↔ x = a ∨ x ∈ l := by
  induction l with
  | nil => simp [insertLe]
  | cons b t ih =>
    by_cases h : le b a
    · simp [insertLe, h, ih]
      tauto
    · simp [insertLe, h, ih]

lemma insertLe_perm (a : α) (l : List α) : (insertLe le a l).Perm (a :: l) := by
  induction l with
  | nil => simp [insertLe]
  | cons b t ih =>
    by_cases h : le b a
    · simpa [insertLe, h] using (ih.cons b).trans (List.Perm.swap a b t)
    · simp [insertLe, h]

lemma foldl_insertLe_perm (l acc : List α) :
    (l.foldl (fun acc x => insertLe le x acc) acc).Perm (acc ++ l) := by
  induction l generalizing acc with
  | nil => simp
  | cons x t ih =>
    refine (ih (insertLe le x acc)).trans ?_
    have h1 : (insertLe le x acc ++ t).Perm ((x :: acc) ++ t) :=
      (insertLe_perm le x acc).append_right t
    exact h1.trans (List.perm_middle).symm

lemma sortLe_perm (l : List α) : (sortLe le l).Perm l := by
  simpa [sortLe] using foldl_insertLe_perm le l []

lemma pairwise_insertLe
    (htot : ∀ a b, le a b = true ∨ le b a = true)
    (htrans : ∀ {a b c}, le a b = true → le b c = true → le a c = true)
    (a : α) (l : List α) (hl : l.Pairwise (fun x y => le x y = true)) :
    (insertLe le a l).Pairwise (fun x y => le x y = true) := by
  induction l with
  | nil => simp [insertLe]
  | cons b t ih =>
    rcases List.pairwise_cons.mp hl with ⟨hb, ht⟩
    by_cases h : le b a
    · rw [insertLe, if_pos h]
      refine List.pairwise_cons.mpr ⟨?_, ih ht⟩
      intro x hx
      rcases (mem_insertLe le a t x).mp hx with rfl | hx
      · exact h
      · exact hb x hx
    · rw [insertLe, if_neg h]
      have hab : le a b = true := by
        rcases htot a b with h1 | h1
        · exact h1
        · exact absurd h1 h
      refine List.pairwise_cons.mpr ⟨?_, hl⟩
      intro x hx
      rcases List.mem_cons.mp hx with rfl | hx
      · exact hab
      · exact htrans hab (hb x hx)

lemma sortLe_pairwise
    (htot : ∀ a b, le a b = true ∨ le b a = true)
    (htrans : ∀ {a b c}, le a b = true → le b c = true → le a c = true)
    (l : List α) :
    (sortLe le l).Pairwise (fun x y => le x y = true) := by
  suffices h : ∀ acc, acc.Pairwise (fun x y => le x y = true) →
      (l.foldl (fun acc x => insertLe le x acc) acc).Pairwise
        (fun x y => le x y = true) by
    exact h [] (by simp)
  induction l with
  | nil => intro acc hacc; simpa using hacc
  | cons x t ih =>
    intro acc hacc
    exact ih (insertLe le x acc) (pairwise_insertLe le htot htrans x acc hacc)

lemma filter_insertLe (p : α → Bool)
    (htrans : ∀ {a b c}, le a b = true → le b c = true → le a c = true)
    (hcls : ∀ x y, p x = true → p y = true → le x y = true)
    (a : α) (l : List α) (hl : l.Pairwise (fun x y => le x y = true)) :
    (insertLe le a l).filter p =
      (if p a then l.filter p ++ [a] else l.filter p) := by
  induction l with
  | nil => by_cases h : p a <;> simp [insertLe, List.filter, h]
  | cons b t ih =>
    rcases List.pairwise_cons.mp hl with ⟨hb, ht⟩
    by_cases h : le b a
    · rw [insertLe, if_pos h]
      by_cases hpb : p b
      · simp only [List.filter_cons, hpb, ih ht]
        by_cases hpa : p a <;> simp [hpa]
      · simp only [List.filter_cons, hpb, ih ht]
        by_cases hpa : p a <;> simp [hpa]
    · rw [insertLe, if_neg h]
      by_cases hpa : p a
      · have hnil : (b :: t).filter p = [] := by
          rw [List.filter_eq_nil_iff]
          intro x hx hpx
          apply h
          rcases List.mem_cons.mp hx with rfl | hx
          · exact hcls x a hpx hpa
          · exact htrans (hb x hx) (hcls x a hpx hpa)
        simp [List.filter_cons, hpa, hnil]
      · simp [List.filter_cons, hpa]

lemma filter_sortLe (p : α → Bool)
    (htot : ∀ a b, le a b = true ∨ le b a = true)
    (htrans : ∀ {a b c}, le a b = true → le b c = true → le a c = true)
    (hcls : ∀ x y, p x = true → p y = true → le x y = true)
    (l : List α) :
    (sortLe le l).filter p = l.filter p := by
  suffices h : ∀ acc, acc.Pairwise (fun x y => le x y = true) →
      (l.foldl (fun acc x => insertLe le x acc) acc).filter p =
        acc.filter p ++ l.filter p by
    simpa using h [] (by simp)
  induction l with
  | nil => intro acc hacc; simp
  | cons x t ih =>
    intro acc hacc
    rw [List.foldl_cons, ih (insertLe le x acc)
      (pairwise_insertLe le htot htrans x acc hacc),
      filter_insertLe le p htrans hcls x acc hacc]
    by_cases hpx : p x <;> simp [hpx, List.filter_cons]

end SortLemmas

/-! ### Lemmas about insertion-ordered association lists -/

section AssocLemmas

variable {κ : Type} [DecidableEq κ]

lemma lookupKey_upsert (k : κ) (a : Row) (l : List (κ × List Row)) (k2 : κ) :
    lookupKey (upsert k a l) k2 =
      if k2 = k then some ((lookupKey l k).getD [] ++ [a]) else lookupKey l k2 := by
  induction l with
  | nil =>
    by_cases h : k = k2
    · subst h; simp [upsert, lookupKey]
    · simp [upsert, lookupKey, h, Ne.symm h]
  | cons e rest ih =>
    obtain ⟨k0, v0⟩ := e
    by_cases h : k0 = k
    · subst h
      by_cases h2 : k0 = k2
      · subst h2; simp [upsert, lookupKey]
      · simp [upsert, lookupKey, h2, Ne.symm h2]
    · by_cases h2 : k0 = k2
      · subst h2
        simp [upsert, lookupKey, h, Ne.symm h]
      · simp [upsert, lookupKey, h, h2, ih]

lemma lookupKey_setKey (k : κ) (a : Row) (l : List (κ × Row)) (k2 : κ) :
    lookupKey (setKey k a l) k2 =
      if k2 = k then some a else lookupKey l k2 := by
  induction l with
  | nil =>
    by_cases h : k = k2
    · subst h; simp [setKey, lookupKey]
    · simp [setKey, lookupKey, h, Ne.symm h]
  | cons e rest ih =>
    obtain ⟨k0, v0⟩ := e
    by_cases h : k0 = k
    · subst h
      by_cases h2 : k0 = k2
      · subst h2; simp [setKey, lookupKey]
      · simp [setKey, lookupKey, h2, Ne.symm h2]
    · by_cases h2 : k0 = k2
      · subst h2
        simp [setKey, lookupKey, h, Ne.symm h]
      · simp [setKey, lookupKey, h, h2, ih]

end AssocLemmas

/-! ### Characterization of the analysis loop -/

lemma optAppend_push (o : Option (List Row)) (r : Row) (sel : List Row) :
    optAppend (some (o.getD [] ++ [r])) sel = optAppend o (r :: sel) := by
  cases sel <;> simp [optAppend]

lemma optAppend_single_cons (o : Option (List Row)) (r : Row) (sel : List Row) :
    optAppend (optAppend o [r]) sel = optAppend o (r :: sel) := by
  cases sel <;> simp [optAppend]

lemma isPay_false_of_not_actual (r : Row)
    (h0 : ¬(r.forecastType = 0 ∧ r.year.isSome = true)) : isPay r = false := by
  rw [Bool.eq_false_iff]
  intro hc
  simp only [isPay, Bool.and_eq_true, beq_iff_eq, decide_eq_true_eq] at hc
  exact h0 ⟨hc.1.1, hc.1.2⟩

lemma stepRow_allPayments (ym : Int) (st : Analysis) (r : Row) :
    (stepRow ym st r).allPayments =
      st.allPayments ++ (if isPay r then [r] else []) := by
  by_cases h0 : r.forecastType = 0 ∧ r.year.isSome = true
  · obtain ⟨h00, h02⟩ := h0
    by_cases hA : 0 < r.amount <;> cases hqr : r.quarter <;>
      simp [stepRow, isPay, h00, h02, hA, hqr]
  · have hp := isPay_false_of_not_actual r h0
    by_cases h1 : r.forecastType = 1
    · cases hy : r.year <;> cases hqr : r.quarter <;>
        simp [stepRow, h0, h1, hy, hqr, hp]
    · simp [stepRow, h0, h1, hp]

lemma stepRow_recentSum (ym : Int) (st : Analysis) (r : Row) :
    (stepRow ym st r).recentSum = st.recentSum + rowContrib ym r := by
  by_cases h0 : r.forecastType = 0 ∧ r.year.isSome = true
  · obtain ⟨h00, h02⟩ := h0
    by_cases hA : 0 < r.amount <;> cases hqr : r.quarter <;>
      simp [stepRow, rowContrib, isPay, h00, h02, hA, hqr]
  · have hp := isPay_false_of_not_actual r h0
    by_cases h1 : r.forecastType = 1
    · cases hy : r.year <;> cases hqr : r.quarter <;>
        simp [stepRow, rowContrib, h0, h1, hy, hqr, hp]
    · simp [stepRow, rowContrib, h0, h1, hp]

lemma stepRow_annDates_lookup (ym : Int) (st : Analysis) (r : Row) (md : Int × Int) :
    lookupKey (stepRow ym st r).annDates md =
      optAppend (lookupKey st.annDates md) (if inAnn md r then [r] else []) := by
  by_cases hq0 : inAnn md r = true
  · simp only [inAnn, Bool.and_eq_true, beq_iff_eq] at hq0
    obtain ⟨hpay, hdate⟩ := hq0
    simp only [isPay, Bool.and_eq_true, beq_iff_eq, decide_eq_true_eq] at hpay
    obtain ⟨⟨h00, h02⟩, hA⟩ := hpay
    obtain ⟨dt, hdt, hmd⟩ : ∃ dt, r.recordDate = some dt ∧ (dt.m, dt.d) = md := by
      cases hr : r.recordDate with
      | none => rw [hr] at hdate; simp at hdate
      | some dt => rw [hr] at hdate; simp at hdate; exact ⟨dt, rfl, hdate⟩
    have hup : (stepRow ym st r).annDates = upsert md r st.annDates := by
      cases hqr : r.quarter <;> simp [stepRow, h00, h02, hA, hqr, hdt, hmd]
    rw [hup, lookupKey_upsert, if_pos rfl]
    have : inAnn md r = true := by
      simp [inAnn, isPay, h00, h02, hA, hdt, hmd]
    simp [this, optAppend]
  · have hmain : lookupKey (stepRow ym st r).annDates md = lookupKey st.annDates md := by
      by_cases h0 : r.forecastType = 0 ∧ r.year.isSome = true
      · by_cases hA : 0 < r.amount
        · cases hr : r.recordDate with
          | none => cases hqr : r.quarter <;> simp [stepRow, h0.1, h0.2, hA, hr, hqr]
          | some dt =>
            have hne : md ≠ (dt.m, dt.d) := by
              rintro rfl
              exact hq0 (by simp [inAnn, isPay, h0.1, h0.2, hA, hr])
            cases hqr : r.quarter <;>
              simp [stepRow, h0.1, h0.2, hA, hr, hqr, lookupKey_upsert, hne]
        · cases hqr : r.quarter <;> simp [stepRow, h0.1, h0.2, hA, hqr]
      · by_cases h1 : r.forecastType = 1
        · cases hy : r.year <;> cases hqr : r.quarter <;>
            simp [stepRow, h0, h1, hy, hqr]
        · simp [stepRow, h0, h1]
    rw [hmain, Bool.not_eq_true] at *
    simp [hq0, optAppend]

lemma foldl_allPayments (ym : Int) (rows : List Row) :
    ∀ st : Analysis,
      (rows.foldl (stepRow ym) st).allPayments =
        st.allPayments ++ rows.filter isPay := by
  induction rows with
  | nil => intro st; simp
  | cons r t ih =>
    intro st
    rw [List.foldl_cons, ih, stepRow_allPayments, List.filter_cons]
    by_cases hp : isPay r <;> simp [hp]

/-- `all_payments` holds exactly the positive actual payments with a known
year, in row order. -/
lemma analyze_allPayments (ym : Int) (rows : List Row) :
    (analyze ym rows).allPayments = rows.filter isPay := by
  simpa [Analysis.init] using foldl_allPayments ym rows Analysis.init

lemma foldl_recentSum (ym : Int) (rows : List Row) :
    ∀ st : Analysis,
      (rows.foldl (stepRow ym) st).recentSum =
        st.recentSum + (rows.map (rowContrib ym)).sum := by
  induction rows with
  | nil => intro st; simp
  | cons r t ih =>
    intro st
    rw [List.foldl_cons, ih, stepRow_recentSum, List.map_cons, List.sum_cons,
      add_assoc]

/-- `recent_payments_sum` is the sum of the per-row contributions. -/
lemma analyze_recentSum (ym : Int) (rows : List Row) :
    (analyze ym rows).recentSum = (rows.map (rowContrib ym)).sum := by
  simpa [Analysis.init] using foldl_recentSum ym rows Analysis.init

/-- `annual_payment_dates[(m, d)]` holds exactly the payments on that
anniversary, in row order (absent when there are none). -/
lemma analyze_annDates_lookup (ym : Int) (md : Int × Int) (rows : List Row) :
    lookupKey (analyze ym rows).annDates md =
      (if (rows.filter (inAnn md)).isEmpty then none
       else some (rows.filter (inAnn md))) := by
  have hfold : ∀ st : Analysis,
      lookupKey (rows.foldl (stepRow ym) st).annDates md =
        optAppend (lookupKey st.annDates md) (rows.filter (inAnn md)) := by
    induction rows with
    | nil => intro st; simp [optAppend]
    | cons r t ih =>
      intro st
      rw [List.foldl_cons, ih, stepRow_annDates_lookup, List.filter_cons]
      by_cases hq : inAnn md r
      · rw [if_pos hq, if_pos hq]
        exact optAppend_single_cons _ _ _
      · rw [if_neg hq, if_neg hq]
        simp [optAppend]
  have h := hfold Analysis.init
  simp only [analyze]
  rw [h]
  simp [Analysis.init, optAppend, lookupKey]

/-- Under the non-negative-amount invariant of the data model, the claims'
recent-activity sum coincides with the engine's `recent_payments_sum`. -/
lemma analyze_recentSum_eq_claim (ym : Int) (rows : List Row)
    (hpos : ∀ r ∈ rows, 0 ≤ r.amount) :
    (analyze ym rows).recentSum = claimRecentSum rows ym := by
  rw [analyze_recentSum]
  induction rows with
  | nil => simp [claimRecentSum]
  | cons r t ih =>
    have hr : 0 ≤ r.amount := hpos r (List.mem_cons_self _ _)
    have ht : ∀ x ∈ t, 0 ≤ x.amount := fun x hx => hpos x (List.mem_cons_of_mem _ hx)
    rw [List.map_cons, List.sum_cons, ih ht]
    unfold claimRecentSum
    rw [List.filter_cons]
    by_cases hcl : (r.forecastType == 0 && yearAtLeast r ym) = true
    · rw [if_pos hcl, List.map_cons, List.sum_cons]
      simp only [Bool.and_eq_true, beq_iff_eq] at hcl
      by_cases hA : 0 < r.amount
      · have : rowContrib ym r = r.amount := by
          have hys : r.year.isSome = true := by
            cases hy : r.year with
            | none =>
              exfalso
              have hb := hcl.2
              simp [yearAtLeast, hy] at hb
            | some _ => simp
          simp [rowContrib, isPay, hcl.1, hcl.2, hys, hA]
        rw [this]
      · have h0 : r.amount = 0 := le_antisymm (not_lt.mp hA) hr
        have : rowContrib ym r = 0 := by
          simp [rowContrib, isPay, hA]
        rw [this, h0]
    · rw [if_neg hcl]
      have : rowContrib ym r = 0 := by
        rw [rowContrib, if_neg]
        intro hc
        simp only [Bool.and_eq_true] at hc
        apply hcl
        simp only [Bool.and_eq_true]
        refine ⟨?_, hc.2⟩
        simp only [isPay, Bool.and_eq_true] at hc
        exact hc.1.1.1
      rw [this, zero_add]

/-! ### Facts about the generated forecast records -/

lemma futureYears_length (cy : Int) (years : Nat) :
    (futureYears cy years).length = years := by
  rw [futureYears, List.length_map, List.length_range]

lemma futureYears_nodup (cy : Int) (years : Nat) :
    (futureYears cy years).Nodup := by
  rw [futureYears]
  refine (List.nodup_range years).map ?_
  intro i j h
  simp only at h
  omega

lemma mem_futureYears (cy : Int) (years : Nat) (fy : Int) :
    fy ∈ futureYears cy years ↔ ∃ i : Nat, i < years ∧ cy + 1 + (i : Int) = fy := by
  simp [futureYears]

lemma head_mem_futureYears (cy : Int) (years : Nat) (h : 0 < years) :
    cy + 1 ∈ futureYears cy years :=
  (mem_futureYears cy years (cy + 1)).mpr ⟨0, h, by simp⟩

lemma length_filter_eq_of_nodup (l : List Int) (hnd : l.Nodup) (fy : Int)
    (hm : fy ∈ l) : (l.filter (fun z => z == fy)).length = 1 := by
  induction l with
  | nil => simp at hm
  | cons a t ih =>
    rw [List.filter_cons]
    rcases List.nodup_cons.mp hnd with ⟨hna, hndt⟩
    by_cases ha : a = fy
    · subst ha
      have hnil : t.filter (fun z => z == a) = [] := by
        rw [List.filter_eq_nil_iff]
        intro x hx hbx
        rw [beq_iff_eq] at hbx
        exact hna (hbx ▸ hx)
      simp [hnil]
    · have hm2 : fy ∈ t := by
        rcases List.mem_cons.mp hm with rfl | h2
        · exact absurd rfl ha
        · exact h2
      rw [if_neg (by simpa using ha)]
      exact ih hndt hm2

lemma branch_count (cy : Int) (years : Nat) (q fy qi : Int) (g : Int → FRec)
    (hq : ∀ z, (g z).quarter = some qi) (hy : ∀ z, (g z).year = some z)
    (hfy : fy ∈ futureYears cy years) :
    (((futureYears cy years).map g).filter
        (fun x => x.quarter == some q && x.year == some fy)).length
      = if qi = q then 1 else 0 := by
  rw [List.filter_map, List.length_map]
  by_cases hqq : qi = q
  · subst hqq
    rw [if_pos rfl]
    have hcong : ∀ z ∈ futureYears cy years,
        ((fun x => x.quarter == some qi && x.year == some fy) ∘ g) z = (z == fy) := by
      intro z hz
      simp [Function.comp, hq z, hy z]
    rw [List.filter_congr hcong]
    exact length_filter_eq_of_nodup _ (futureYears_nodup cy years) fy hfy
  · rw [if_neg hqq]
    have hcong : ∀ z ∈ futureYears cy years,
        ((fun x => x.quarter == some q && x.year == some fy) ∘ g) z = false := by
      intro z hz
      simp [Function.comp, hq z, hqq]
    rw [List.filter_congr hcong]
    simp

lemma makeDate_fixed_quarter (y q : Int) (hq : q = 1 ∨ q = 2 ∨ q = 3 ∨ q = 4) :
    makeDate y (3 * q) 15 = ⟨y, 3 * q, 15⟩ := by
  rcases hq with rfl | rfl | rfl | rfl <;>
    · rw [makeDate, if_pos]
      rw [validDateB]
      simp [daysInMonth]

lemma zeroQuarter_mem_props (L : String) (cy : Int) (years : Nat) (t n : String) :
    ∀ x ∈ zeroQuarterForecasts L cy years t n,
      x.amount = 0 ∧ x.strategy = L ∧ x.forecastType = 2 ∧ x.ticker = t ∧
      ∃ q fy, x.quarter = some q ∧ x.year = some fy ∧
        (q = 1 ∨ q = 2 ∨ q = 3 ∨ q = 4) ∧ fy ∈ futureYears cy years ∧
        x.recordDate = some ⟨fy, 3 * q, 15⟩ := by
  intro x hx
  simp only [zeroQuarterForecasts, quarterlyDates, List.flatMap_cons,
    List.flatMap_nil, List.append_nil, List.mem_append, List.mem_map] at hx
  rcases hx with ⟨fy, hfy, rfl⟩ | ⟨fy, hfy, rfl⟩ | ⟨fy, hfy, rfl⟩ | ⟨fy, hfy, rfl⟩
  · refine ⟨rfl, rfl, rfl, rfl, 1, fy, rfl, rfl, by norm_num, hfy, ?_⟩
    have h3 := makeDate_fixed_quarter fy 1 (by norm_num)
    norm_num at h3
    simp only [mkForecast]
    rw [h3]
    norm_num
  · refine ⟨rfl, rfl, rfl, rfl, 2, fy, rfl, rfl, by norm_num, hfy, ?_⟩
    have h6 := makeDate_fixed_quarter fy 2 (by norm_num)
    norm_num at h6
    simp only [mkForecast]
    rw [h6]
    norm_num
  · refine ⟨rfl, rfl, rfl, rfl, 3, fy, rfl, rfl, by norm_num, hfy, ?_⟩
    have h9 := makeDate_fixed_quarter fy 3 (by norm_num)
    norm_num at h9
    simp only [mkForecast]
    rw [h9]
    norm_num
  · refine ⟨rfl, rfl, rfl, rfl, 4, fy, rfl, rfl, by norm_num, hfy, ?_⟩
    have h12 := makeDate_fixed_quarter fy 4 (by norm_num)
    norm_num at h12
    simp only [mkForecast]
    rw [h12]
    norm_num

lemma zeroQuarter_filter_count (L : String) (cy : Int) (years : Nat)
    (t n : String) (q fy : Int) (hq : q = 1 ∨ q = 2 ∨ q = 3 ∨ q = 4)
    (hfy : fy ∈ futureYears cy years) :
    ((zeroQuarterForecasts L cy years t n).filter
      (fun x => x.quarter == some q && x.year == some fy)).length = 1 := by
  simp only [zeroQuarterForecasts, quarterlyDates, List.flatMap_cons,
    List.flatMap_nil, List.append_nil, List.filter_append, List.length_append]
  rw [branch_count cy years q fy 1 _ (fun z => rfl) (fun z => rfl) hfy,
    branch_count cy years q fy 2 _ (fun z => rfl) (fun z => rfl) hfy,
    branch_count cy years q fy 3 _ (fun z => rfl) (fun z => rfl) hfy,
    branch_count cy years q fy 4 _ (fun z => rfl) (fun z => rfl) hfy]
  rcases hq with rfl | rfl | rfl | rfl <;> norm_num

lemma zeroQuarter_length (L : String) (cy : Int) (years : Nat) (t n : String) :
    (zeroQuarterForecasts L cy years t n).length = 4 * years := by
  simp only [zeroQuarterForecasts, quarterlyDates, List.flatMap_cons,
    List.flatMap_nil, List.append_nil, List.length_append, List.length_map,
    futureYears_length]
  omega

lemma quarterForecastRec_fields (a : Analysis) (cm : Int) (t n : String)
    (q : Int) (h : List Row) (fy : Int) :
    (quarterForecastRec a cm t n q h fy).quarter = some q ∧
    (quarterForecastRec a cm t n q h fy).year = some fy ∧
    (quarterForecastRec a cm t n q h fy).strategy = quarterlyLabel ∧
    (quarterForecastRec a cm t n q h fy).forecastType = 2 ∧
    (quarterForecastRec a cm t n q h fy).ticker = t := by
  cases hl : lookupKey a.siteForecasts (fy, q) with
  | none => simp [quarterForecastRec, hl, mkForecast]
  | some sf =>
    cases hd : sf.recordDate with
    | none => simp [quarterForecastRec, hl, hd, mkForecast]
    | some sdt => simp [quarterForecastRec, hl, hd, mkForecast]

lemma mem_quarterlyForecasts (a : Analysis) (cy cm : Int) (years : Nat)
    (t n : String) (x : FRec) (hx : x ∈ quarterlyForecasts a cy cm years t n) :
    ∃ qh, qh ∈ a.quarters ∧ ∃ fy, fy ∈ futureYears cy years ∧
      x = quarterForecastRec a cm t n qh.1 qh.2 fy := by
  simp only [quarterlyForecasts, List.mem_flatMap] at hx
  rcases hx with ⟨qh, hqh, hx⟩
  by_cases he : qh.2.isEmpty
  · rw [if_pos he] at hx
    simp at hx
  · rw [if_neg he] at hx
    rcases List.mem_map.mp hx with ⟨fy, hfy, rfl⟩
    exact ⟨qh, hqh, fy, hfy, rfl⟩

lemma quarterForecastRec_mem (a : Analysis) (cy cm : Int) (years : Nat)
    (t n : String) (q : Int) (h : List Row) (fy : Int)
    (hmem : (q, h) ∈ a.quarters) (hne : h ≠ []) (hfy : fy ∈ futureYears cy years) :
    quarterForecastRec a cm t n q h fy ∈ quarterlyForecasts a cy cm years t n := by
  rw [quarterlyForecasts, List.mem_flatMap]
  refine ⟨(q, h), hmem, ?_⟩
  rw [if_neg (by simpa using hne)]
  exact List.mem_map_of_mem _ hfy

lemma annivForecastRec_fields (t n : String) (md : Int × Int)
    (payments : List Row) (fy : Int) :
    (annivForecastRec t n md payments fy).strategy = paymentDatesLabel ∧
    (annivForecastRec t n md payments fy).forecastType = 2 ∧
    (annivForecastRec t n md payments fy).year = some fy ∧
    (annivForecastRec t n md payments fy).ticker = t := by
  simp [annivForecastRec, mkForecast]

lemma mem_paymentDatesForecasts (a : Analysis) (cy : Int) (years : Nat)
    (t n : String) (x : FRec) (hx : x ∈ paymentDatesForecasts a cy years t n) :
    x.strategy = paymentDatesLabel ∧ x.forecastType = 2 ∧ x.ticker = t := by
  simp only [paymentDatesForecasts, List.mem_flatMap, List.mem_map] at hx
  rcases hx with ⟨mdp, _, fy, _, rfl⟩
  exact ⟨(annivForecastRec_fields t n mdp.1 mdp.2 fy).1,
    (annivForecastRec_fields t n mdp.1 mdp.2 fy).2.1,
    (annivForecastRec_fields t n mdp.1 mdp.2 fy).2.2.2⟩

lemma mem_annualForecasts (a : Analysis) (cy : Int) (years : Nat)
    (t n : String) (x : FRec) (hx : x ∈ annualForecasts a cy years t n) :
    x.strategy = annualLabel ∧ x.forecastType = 2 ∧ x.ticker = t := by
  simp only [annualForecasts, quarterlyDates, List.flatMap_cons, List.flatMap_nil,
    List.append_nil, List.mem_append, List.mem_map] at hx
  rcases hx with ⟨fy, _, rfl⟩ | ⟨fy, _, rfl⟩ | ⟨fy, _, rfl⟩ | ⟨fy, _, rfl⟩ <;>
    exact ⟨rfl, rfl, rfl⟩

lemma mem_quarterlyForecasts_fields (a : Analysis) (cy cm : Int) (years : Nat)
    (t n : String) (x : FRec) (hx : x ∈ quarterlyForecasts a cy cm years t n) :
    x.strategy = quarterlyLabel ∧ x.forecastType = 2 ∧ x.ticker = t := by
  rcases mem_quarterlyForecasts a cy cm years t n x hx with ⟨qh, _, fy, _, rfl⟩
  exact ⟨(quarterForecastRec_fields a cm t n qh.1 qh.2 fy).2.2.1,
    (quarterForecastRec_fields a cm t n qh.1 qh.2 fy).2.2.2.1,
    (quarterForecastRec_fields a cm t n qh.1 qh.2 fy).2.2.2.2⟩

/-! ### The strategy chain of `forecastTicker` -/

/-- The four stages of the fallback chain, as lists (empty when skipped). -/
lemma forecastTicker_eq (cy cm : Int) (years : Nat) (historyYears : Int)
    (t n : String) (rows : List Row) :
    forecastTicker cy cm years historyYears t n rows =
      (let a := analyze (cy - historyYears) rows
       if a.recentSum = 0 then
         zeroQuarterForecasts inactiveLabel cy years t n
       else
         let c1 := if hasQuarterlyData a then quarterlyForecasts a cy cm years t n else []
         let c2 := if c1.length = 0 ∧ a.annDates ≠ [] then
             paymentDatesForecasts a cy years t n else []
         let c3 := if c1.length = 0 ∧ c2.length = 0 ∧ 0 < a.allPayments.length then
             annualForecasts a cy years t n else []
         let c4 := if c1.length = 0 ∧ c2.length = 0 ∧ c3.length = 0 then
             zeroQuarterForecasts emergencyLabel cy years t n else []
         c1 ++ c2 ++ c3 ++ c4) := rfl

lemma mem_of_mem_ite {α : Type} {P : Prop} [Decidable P] {l : List α} {x : α}
    (h : x ∈ (if P then l else [])) : x ∈ l := by
  split at h
  · exact h
  · simp at h

lemma mem_of_mem_ite2 {α : Type} {P : Prop} [Decidable P] {l : List α} {x : α}
    (h : x ∈ (if P then [] else l)) : x ∈ l := by
  split at h
  · simp at h
  · exact h

/-- Every record the chain emits is a fresh forecast record (provenance 2)
for this ticker. -/
lemma forecastTicker_mem_fields (cy cm : Int) (years : Nat) (historyYears : Int)
    (t n : String) (rows : List Row) (x : FRec)
    (hx : x ∈ forecastTicker cy cm years historyYears t n rows) :
    x.forecastType = 2 ∧ x.ticker = t ∧
    (x.strategy = inactiveLabel ∨ x.strategy = quarterlyLabel ∨
     x.strategy = paymentDatesLabel ∨ x.strategy = annualLabel ∨
     x.strategy = emergencyLabel) := by
  rw [forecastTicker] at hx
  set a := analyze (cy - historyYears) rows with ha
  by_cases hgate : a.recentSum = 0
  · rw [if_pos hgate] at hx
    rcases zeroQuarter_mem_props inactiveLabel cy years t n x hx with
      ⟨_, hs, hft, hticker, _⟩
    exact ⟨hft, hticker, Or.inl hs⟩
  · rw [if_neg hgate] at hx
    simp only [List.mem_append] at hx
    rcases hx with ((hx | hx) | hx) | hx
    · rcases mem_quarterlyForecasts_fields a cy cm years t n x (mem_of_mem_ite hx)
        with ⟨hs, hft, hticker⟩
      exact ⟨hft, hticker, Or.inr (Or.inl hs)⟩
    · rcases mem_paymentDatesForecasts a cy years t n x (mem_of_mem_ite hx)
        with ⟨hs, hft, hticker⟩
      exact ⟨hft, hticker, Or.inr (Or.inr (Or.inl hs))⟩
    · rcases mem_annualForecasts a cy years t n x (mem_of_mem_ite hx)
        with ⟨hs, hft, hticker⟩
      exact ⟨hft, hticker, Or.inr (Or.inr (Or.inr (Or.inl hs)))⟩
    · rcases zeroQuarter_mem_props emergencyLabel cy years t n x (mem_of_mem_ite hx)
        with ⟨_, hs, hft, hticker, _⟩
      exact ⟨hft, hticker, Or.inr (Or.inr (Or.inr (Or.inr hs)))⟩

/-- With a positive horizon the chain always emits at least one record. -/
lemma forecastTicker_length_pos (cy cm : Int) (years : Nat) (historyYears : Int)
    (t n : String) (rows : List Row) (hy : 0 < years) :
    1 ≤ (forecastTicker cy cm years historyYears t n rows).length := by
  rw [forecastTicker]
  set a := analyze (cy - historyYears) rows with ha
  by_cases hgate : a.recentSum = 0
  · rw [if_pos hgate, zeroQuarter_length]
    omega
  · rw [if_neg hgate]
    simp only [List.length_append]
    set c1 := if hasQuarterlyData a then quarterlyForecasts a cy cm years t n else []
      with hc1
    set c2 := if c1.length = 0 ∧ a.annDates ≠ [] then
        paymentDatesForecasts a cy years t n else [] with hc2
    set c3 := if c1.length = 0 ∧ c2.length = 0 ∧ 0 < a.allPayments.length then
        annualForecasts a cy years t n else [] with hc3
    by_cases h1 : c1.length = 0
    · by_cases h2 : c2.length = 0
      · by_cases h3 : c3.length = 0
        · rw [if_pos ⟨h1, h2, h3⟩, zeroQuarter_length]
          omega
        · omega
      · omega
    · omega

/-! ### Claim C4: the date-clamping rule -/

lemma isLeap_iff (y : Int) : isLeap y = true ↔ leapSpec y := by
  rw [isLeap, leapSpec]
  simp only [Bool.and_eq_true, Bool.or_eq_true, beq_iff_eq, bne_iff_ne,
    Int.dvd_iff_emod_eq_zero]

/-- Claim C4: whenever the engine synthesizes an invalid (year, month, day)
with a month in range, the clamped date is exactly as the claim words it:
Feb 29/28 by the Gregorian leap-year rule when month = 2 and day > 28, day 30
for day > 30 in a 30-day month, and otherwise the last day of the previous
month (Dec 31 of the previous year when month = 1).  In particular Feb 29 of
a non-leap year clamps to Feb 28, and Apr 31 clamps to Apr 30. -/
theorem C4_date_clamping (y m d : Int) (hm1 : 1 ≤ m) (hm2 : m ≤ 12)
    (hinv : validDateB y m d = false) :
    makeDate y m d = clampSpec y m d ∧
    (∀ yy : Int, ¬ leapSpec yy → makeDate yy 2 29 = ⟨yy, 2, 28⟩) ∧
    (∀ yy : Int, makeDate yy 4 31 = ⟨yy, 4, 30⟩) := by
  refine ⟨?_, ?_, ?_⟩
  · rw [makeDate, if_neg (by simp [hinv]), clampSpec]
    by_cases hfeb : m = 2 ∧ 28 < d
    · rw [if_pos hfeb, if_pos hfeb]
      by_cases hleap : leapSpec y
      · rw [if_pos ((isLeap_iff y).mpr hleap), if_pos hleap]
      · rw [if_neg (fun hc => hleap ((isLeap_iff y).mp hc)), if_neg hleap]
    · rw [if_neg hfeb, if_neg hfeb]
      by_cases h30 : 30 < d ∧ (m = 4 ∨ m = 6 ∨ m = 9 ∨ m = 11)
      · rw [if_pos h30, if_pos h30]
      · rw [if_neg h30, if_neg h30]
        by_cases hm : m = 1
        · rw [if_neg (show ¬ 1 < m by omega), if_pos hm]
        · rw [if_pos (show 1 < m by omega), if_neg hm]
          rfl
  · intro yy hnl
    have hleap : ¬ isLeap yy = true := fun hc => hnl ((isLeap_iff yy).mp hc)
    have hdim : daysInMonth yy 2 = 28 := by
      rw [daysInMonth, if_pos rfl, if_neg hleap]
    have hval : ¬ validDateB yy 2 29 = true := by
      rw [validDateB, decide_eq_true_eq]
      intro hc
      rw [hdim] at hc
      omega
    rw [makeDate, if_neg hval, if_pos (by norm_num), if_neg hleap]
  · intro yy
    have hdim : daysInMonth yy 4 = 30 := by
      rw [daysInMonth]
      norm_num
    have hval : ¬ validDateB yy 4 31 = true := by
      rw [validDateB, decide_eq_true_eq]
      intro hc
      rw [hdim] at hc
      omega
    rw [makeDate, if_neg hval, if_neg (by norm_num), if_pos (by norm_num)]

/-- Witness for C4 at the concrete invalid date Feb 29, 2025. -/
theorem C4_date_clamping_witness :
    ((1 : Int) ≤ 2 ∧ (2 : Int) ≤ 12 ∧ validDateB 2025 2 29 = false) ∧
    (makeDate 2025 2 29 = clampSpec 2025 2 29 ∧
     (∀ yy : Int, ¬ leapSpec yy → makeDate yy 2 29 = ⟨yy, 2, 28⟩) ∧
     (∀ yy : Int, makeDate yy 4 31 = ⟨yy, 4, 30⟩)) :=
  ⟨⟨by norm_num, by norm_num, by decide⟩,
   C4_date_clamping 2025 2 29 (by norm_num) (by norm_num) (by decide)⟩

/-! ### Claim C1: the inactive-company classification -/

/-- Claim C1: for a security whose recent-window ACTUAL payments sum to zero,
the engine emits exactly one zero-amount record per quarter per future year,
labelled "3.4 - Неактивная компания" (inactive-company), dated Mar/Jun/Sep/Dec
15 (month `3 * q`) of the future year; no other strategy contributes. -/
theorem C1_inactive (cy cm : Int) (years : Nat) (historyYears : Int)
    (t n : String) (rows : List Row)
    (hpos : ∀ r ∈ rows, 0 ≤ r.amount)
    (hsum : claimRecentSum rows (cy - historyYears) = 0) :
    (∀ x ∈ forecastTicker cy cm years historyYears t n rows,
      x.amount = 0 ∧ x.strategy = inactiveLabel ∧
      ∃ q fy, x.quarter = some q ∧ x.year = some fy ∧
        (q = 1 ∨ q = 2 ∨ q = 3 ∨ q = 4) ∧ fy ∈ futureYears cy years ∧
        x.recordDate = some ⟨fy, 3 * q, 15⟩) ∧
    (∀ q : Int, (q = 1 ∨ q = 2 ∨ q = 3 ∨ q = 4) → ∀ fy ∈ futureYears cy years,
      ((forecastTicker cy cm years historyYears t n rows).filter
        (fun x => x.quarter == some q && x.year == some fy)).length = 1) := by
  have hgate : (analyze (cy - historyYears) rows).recentSum = 0 := by
    rw [analyze_recentSum_eq_claim (cy - historyYears) rows hpos, hsum]
  have hout : forecastTicker cy cm years historyYears t n rows =
      zeroQuarterForecasts inactiveLabel cy years t n := by
    rw [forecastTicker, if_pos hgate]
  rw [hout]
  constructor
  · intro x hx
    rcases zeroQuarter_mem_props inactiveLabel cy years t n x hx with
      ⟨hamt, hs, _, _, q, fy, hq, hy2, hqr, hfy, hdate⟩
    exact ⟨hamt, hs, q, fy, hq, hy2, hqr, hfy, hdate⟩
  · intro q hq fy hfy
    exact zeroQuarter_filter_count inactiveLabel cy years t n q fy hq hfy

/-- Witness for C1: a single stale 2010 payment against a 2021+ window. -/
theorem C1_inactive_witness :
    ((∀ r ∈ [(⟨"Z", "Z Co", some ⟨2010, 3, 10⟩, 5, some 2010, some 1, 0⟩ : Row)],
        0 ≤ r.amount) ∧
      claimRecentSum [(⟨"Z", "Z Co", some ⟨2010, 3, 10⟩, 5, some 2010, some 1, 0⟩ : Row)]
        (2024 - 3) = 0) ∧
    ((∀ x ∈ forecastTicker 2024 6 1 3 "Z" "Z Co"
        [(⟨"Z", "Z Co", some ⟨2010, 3, 10⟩, 5, some 2010, some 1, 0⟩ : Row)],
      x.amount = 0 ∧ x.strategy = inactiveLabel ∧
      ∃ q fy, x.quarter = some q ∧ x.year = some fy ∧
        (q = 1 ∨ q = 2 ∨ q = 3 ∨ q = 4) ∧ fy ∈ futureYears 2024 1 ∧
        x.recordDate = some ⟨fy, 3 * q, 15⟩) ∧
    (∀ q : Int, (q = 1 ∨ q = 2 ∨ q = 3 ∨ q = 4) → ∀ fy ∈ futureYears 2024 1,
      ((forecastTicker 2024 6 1 3 "Z" "Z Co"
          [(⟨"Z", "Z Co", some ⟨2010, 3, 10⟩, 5, some 2010, some 1, 0⟩ : Row)]).filter
        (fun x => x.quarter == some q && x.year == some fy)).length = 1)) :=
  ⟨⟨by decide, by decide⟩,
   C1_inactive 2024 6 1 3 "Z" "Z Co" _ (by decide) (by decide)⟩

/-! ### Claim C7: totality and the emergency strategy -/

/-- Claim C7: the chain is a total function of its input (so no exception can
reach the caller) and, for a positive horizon, always emits at least one
record; moreover when the activity gate passes but no quarter, anniversary or
payment data exists — so strategies 1–3 contribute nothing — the output is
exactly the emergency forecast: one zero-amount record per quarter per future
year at the fixed anniversary dates. -/
theorem C7_no_failure (cy cm : Int) (years : Nat) (historyYears : Int)
    (t n : String) (rows : List Row) (hy : 0 < years) :
    1 ≤ (forecastTicker cy cm years historyYears t n rows).length ∧
    ((analyze (cy - historyYears) rows).recentSum ≠ 0 →
      (analyze (cy - historyYears) rows).annDates = [] →
      (analyze (cy - historyYears) rows).allPayments = [] →
      forecastTicker cy cm years historyYears t n rows =
        zeroQuarterForecasts emergencyLabel cy years t n) := by
  refine ⟨forecastTicker_length_pos cy cm years historyYears t n rows hy, ?_⟩
  intro hgate hann hpay
  have hq : hasQuarterlyData (analyze (cy - historyYears) rows) = false := by
    rw [hasQuarterlyData, hpay]
    simp
  rw [forecastTicker]
  simp [hgate, hq, hann, hpay]

/-- Witness for C7 on an empty group with horizon 1. -/
theorem C7_no_failure_witness :
    (0 : Nat) < 1 ∧
    (1 ≤ (forecastTicker 2024 6 1 3 "E" "E Co" []).length ∧
     ((analyze (2024 - 3) []).recentSum ≠ 0 →
       (analyze (2024 - 3) []).annDates = [] →
       (analyze (2024 - 3) []).allPayments = [] →
       forecastTicker 2024 6 1 3 "E" "E Co" [] =
         zeroQuarterForecasts emergencyLabel 2024 1 "E" "E Co")) :=
  ⟨by decide, C7_no_failure 2024 6 1 3 "E" "E Co" [] (by decide)⟩

/-! ### Claim C2: the single-payment disqualification -/

/-- Claim C2: a security that passes the activity gate but has at most one
ACTUAL payment in total never uses the quarterly-history strategy — no
emitted record carries its label — and instead some later strategy of the
chain (anniversary dates, annual average or emergency) emits the records. -/
theorem C2_single_payment (cy cm : Int) (years : Nat) (historyYears : Int)
    (t n : String) (rows : List Row)
    (hgate : (analyze (cy - historyYears) rows).recentSum ≠ 0)
    (hone : (rows.filter (fun r =>
        r.forecastType == 0 && decide (0 < r.amount))).length ≤ 1)
    (hy : 0 < years) :
    (∀ x ∈ forecastTicker cy cm years historyYears t n rows,
        x.strategy ≠ quarterlyLabel) ∧
    (∃ x ∈ forecastTicker cy cm years historyYears t n rows,
        x.strategy = paymentDatesLabel ∨ x.strategy = annualLabel ∨
        x.strategy = emergencyLabel) := by
  have hpayle : (analyze (cy - historyYears) rows).allPayments.length ≤ 1 := by
    rw [analyze_allPayments]
    refine le_trans ?_ hone
    have hff : rows.filter isPay =
        (rows.filter (fun r =>
          r.forecastType == 0 && decide (0 < r.amount))).filter
            (fun r => r.year.isSome) := by
      rw [List.filter_filter]
      apply List.filter_congr
      intro r _
      simp only [isPay]
      cases hft : (r.forecastType == 0) <;> cases hys : r.year.isSome <;>
        cases hpa : (decide (0 < r.amount)) <;> simp [hft, hys, hpa]
    rw [hff]
    exact List.length_filter_le _ _
  have hq : hasQuarterlyData (analyze (cy - historyYears) rows) = false := by
    have hdec : decide (1 < (analyze (cy - historyYears) rows).allPayments.length)
        = false := by
      simp only [decide_eq_false_iff_not]
      omega
    rw [hasQuarterlyData, hdec, Bool.and_false]
  have hmem : ∀ x ∈ forecastTicker cy cm years historyYears t n rows,
      x.strategy = paymentDatesLabel ∨ x.strategy = annualLabel ∨
      x.strategy = emergencyLabel := by
    intro x hx
    rw [forecastTicker, if_neg hgate] at hx
    simp only [hq, Bool.false_eq_true, if_false, List.nil_append,
      List.mem_append] at hx
    rcases hx with (hx | hx) | hx
    · exact Or.inl (mem_paymentDatesForecasts _ cy years t n x (mem_of_mem_ite hx)).1
    · exact Or.inr (Or.inl (mem_annualForecasts _ cy years t n x (mem_of_mem_ite hx)).1)
    · exact Or.inr (Or.inr
        (zeroQuarter_mem_props emergencyLabel cy years t n x (mem_of_mem_ite hx)).2.1)
  constructor
  · intro x hx hc
    rcases hmem x hx with hs | hs | hs <;> rw [hs] at hc <;> exact absurd hc (by decide)
  · have hlen := forecastTicker_length_pos cy cm years historyYears t n rows hy
    rcases List.exists_mem_of_length_pos hlen with ⟨x, hx⟩
    exact ⟨x, hx, hmem x hx⟩

/-- Witness for C2: one recent positive payment, so the gate passes and the
total payment count is 1. -/
theorem C2_single_payment_witness :
    ((analyze (2024 - 3)
        [(⟨"W", "W Co", some ⟨2023, 5, 10⟩, 5, some 2023, some 2, 0⟩ : Row)]).recentSum ≠ 0 ∧
     ([(⟨"W", "W Co", some ⟨2023, 5, 10⟩, 5, some 2023, some 2, 0⟩ : Row)].filter
        (fun r => r.forecastType == 0 && decide (0 < r.amount))).length ≤ 1 ∧
     (0 : Nat) < 1) ∧
    ((∀ x ∈ forecastTicker 2024 6 1 3 "W" "W Co"
        [(⟨"W", "W Co", some ⟨2023, 5, 10⟩, 5, some 2023, some 2, 0⟩ : Row)],
        x.strategy ≠ quarterlyLabel) ∧
     (∃ x ∈ forecastTicker 2024 6 1 3 "W" "W Co"
        [(⟨"W", "W Co", some ⟨2023, 5, 10⟩, 5, some 2023, some 2, 0⟩ : Row)],
        x.strategy = paymentDatesLabel ∨ x.strategy = annualLabel ∨
        x.strategy = emergencyLabel)) :=
  ⟨⟨by rw [analyze_recentSum]; norm_num [rowContrib, isPay, yearAtLeast],
    by decide, by decide⟩,
   C2_single_payment 2024 6 1 3 "W" "W Co" _
     (by rw [analyze_recentSum]; norm_num [rowContrib, isPay, yearAtLeast])
     (by decide) (by decide)⟩

/-! ### Claim C10: coverage of the quarterly-history strategy -/

lemma quarterlyForecasts_length_pos (a : Analysis) (cy cm : Int) (years : Nat)
    (t n : String) (hq : hasQuarterlyData a = true) (hy : 0 < years) :
    0 < (quarterlyForecasts a cy cm years t n).length := by
  rw [hasQuarterlyData, Bool.and_eq_true] at hq
  rcases List.any_eq_true.mp hq.1 with ⟨qh, hmem, hlen⟩
  rw [decide_eq_true_eq] at hlen
  have hne : qh.2 ≠ [] := by
    intro hc
    rw [hc] at hlen
    simp at hlen
  have hx : quarterForecastRec a cm t n qh.1 qh.2 (cy + 1) ∈
      quarterlyForecasts a cy cm years t n :=
    quarterForecastRec_mem a cy cm years t n qh.1 qh.2 (cy + 1)
      (by simpa using hmem) hne (head_mem_futureYears cy years hy)
  exact List.length_pos.mpr (List.ne_nil_of_mem hx)

/-- When the gate passes and the quarterly strategy is eligible, the chain's
output is exactly the quarterly strategy's output. -/
lemma forecastTicker_quarterly (cy cm : Int) (years : Nat) (historyYears : Int)
    (t n : String) (rows : List Row)
    (hgate : (analyze (cy - historyYears) rows).recentSum ≠ 0)
    (hq : hasQuarterlyData (analyze (cy - historyYears) rows) = true)
    (hy : 0 < years) :
    forecastTicker cy cm years historyYears t n rows =
      quarterlyForecasts (analyze (cy - historyYears) rows) cy cm years t n := by
  have hlen := quarterlyForecasts_length_pos (analyze (cy - historyYears) rows)
    cy cm years t n hq hy
  rw [forecastTicker, if_neg hgate]
  simp [hq, Nat.pos_iff_ne_zero.mp hlen]

/-- Claim C5: for ticker "ABC" with ACTUAL Q1 records 5.0/7.0/6.0 over
2022–2024, horizon 2, window 3 and current year 2024, the engine produces
exactly two records, for Q1 of 2025 and 2026, each carrying
round((5+7+6)/3, 2) = 6.0 with the quarterly-data label. -/
theorem C5_end_to_end :
    (forecastAll 2024 6 2 3 c5rows).length = 2 ∧
    (forecastAll 2024 6 2 3 c5rows).map (fun x => x.year) =
      [some 2025, some 2026] ∧
    (∀ x ∈ forecastAll 2024 6 2 3 c5rows,
      x.quarter = some 1 ∧ x.strategy = quarterlyLabel ∧
      x.amount = round2 ((5 + 7 + 6) / 3) ∧ x.amount = 6) := by
  have hgate : (analyze (2024 - 3) c5rows).recentSum ≠ 0 := by
    rw [analyze_recentSum]
    norm_num [c5rows, rowContrib, isPay, yearAtLeast]
  have hq : hasQuarterlyData (analyze (2024 - 3) c5rows) = true := by decide
  have htk : tickersOf c5rows = ["ABC"] := by decide
  have hgr : groupOf c5rows "ABC" = c5rows := by decide
  have hname : groupName (groupOf c5rows "ABC") = "ABC Corp" := by decide
  have hout : forecastAll 2024 6 2 3 c5rows =
      quarterlyForecasts (analyze (2024 - 3) c5rows) 2024 6 2 "ABC" "ABC Corp" := by
    rw [forecastAll, htk]
    simp only [List.flatMap_cons, List.flatMap_nil, List.append_nil]
    rw [hname, hgr]
    exact forecastTicker_quarterly 2024 6 2 3 "ABC" "ABC Corp" c5rows hgate hq
      (by decide)
  have hquart : (analyze (2024 - 3) c5rows).quarters = [(1, c5rows)] := by decide
  have hfy : futureYears 2024 2 = [2025, 2026] := by decide
  have hqf : quarterlyForecasts (analyze (2024 - 3) c5rows) 2024 6 2 "ABC" "ABC Corp"
      = (futureYears 2024 2).map
          (quarterForecastRec (analyze (2024 - 3) c5rows) 6 "ABC" "ABC Corp" 1 c5rows) := by
    rw [quarterlyForecasts, hquart]
    simp [c5rows]
  have hamt : ∀ fy : Int,
      (quarterForecastRec (analyze (2024 - 3) c5rows) 6 "ABC" "ABC Corp" 1 c5rows fy).amount
        = round2 ((5 + 7 + 6) / 3) := by
    intro fy
    have hsf : (analyze (2024 - 3) c5rows).siteForecasts = [] := by decide
    have hlk : lookupKey (analyze (2024 - 3) c5rows).siteForecasts (fy, 1) = none := by
      rw [hsf]
      rfl
    simp only [quarterForecastRec, hlk]
    have hsum : (c5rows.map (fun r => r.amount)).sum / ((c5rows.length : Nat) : Rat)
        = (5 + 7 + 6) / 3 := by
      norm_num [c5rows]
    simp only [mkForecast]
    exact congrArg round2 hsum
  rw [hout, hqf, hfy]
  simp only [List.map_cons, List.map_nil, List.length_cons, List.length_nil]
  refine ⟨by trivial, ?_, ?_⟩
  · rw [(quarterForecastRec_fields _ 6 "ABC" "ABC Corp" 1 c5rows 2025).2.1,
      (quarterForecastRec_fields _ 6 "ABC" "ABC Corp" 1 c5rows 2026).2.1]
  · intro x hx
    have hval : round2 ((5 + 7 + 6) / 3 : Rat) = 6 := by
      norm_num [round2]
    rcases List.mem_cons.mp hx with rfl | hx
    · exact ⟨(quarterForecastRec_fields _ 6 "ABC" "ABC Corp" 1 c5rows 2025).1,
        (quarterForecastRec_fields _ 6 "ABC" "ABC Corp" 1 c5rows 2025).2.2.1,
        hamt 2025, by rw [hamt 2025, hval]⟩
    rcases List.mem_cons.mp hx with rfl | hx
    · exact ⟨(quarterForecastRec_fields _ 6 "ABC" "ABC Corp" 1 c5rows 2026).1,
        (quarterForecastRec_fields _ 6 "ABC" "ABC Corp" 1 c5rows 2026).2.2.1,
        hamt 2026, by rw [hamt 2026, hval]⟩
    · simp at hx

/-! ### Claim C3: the site-forecast override -/

lemma quarterPointNaT_fields (a : Analysis) (cm : Int) (t n : String)
    (q : Int) (h : List Row) (fy : Int) (x : FRec)
    (hx : quarterPointNaT a cm t n q h fy = some x) :
    x.quarter = some q ∧ x.year = some fy := by
  cases hl : lookupKey a.siteForecasts (fy, q) with
  | none =>
    simp only [quarterPointNaT, hl, Option.some.injEq] at hx
    subst hx
    simp [mkForecast]
  | some sf =>
    cases hd : sf.recordDate with
    | none => simp [quarterPointNaT, hl, hd] at hx
    | some sdt =>
      simp only [quarterPointNaT, hl, hd, Option.some.injEq] at hx
      subst hx
      simp [mkForecast]

lemma quarterPointNaT_site (a : Analysis) (cm : Int) (t n : String) (q : Int)
    (h : List Row) (fy : Int) (sf : Row) (sdt : Date)
    (hlook : lookupKey a.siteForecasts (fy, q) = some sf)
    (hd : sf.recordDate = some sdt) :
    quarterPointNaT a cm t n q h fy =
      some (mkForecast t n sdt sf.amount fy (some q) quarterlyLabel) := by
  simp [quarterPointNaT, hlook, hd]

lemma quarterPointNaT_skip (a : Analysis) (cm : Int) (t n : String) (q : Int)
    (h : List Row) (fy : Int) (sf : Row)
    (hlook : lookupKey a.siteForecasts (fy, q) = some sf)
    (hd : sf.recordDate = none) :
    quarterPointNaT a cm t n q h fy = none := by
  simp [quarterPointNaT, hlook, hd]

lemma mem_quarterlyForecastsNaT (a : Analysis) (cy cm : Int) (years : Nat)
    (t n : String) (x : FRec)
    (hx : x ∈ quarterlyForecastsNaT a cy cm years t n) :
    ∃ qh, qh ∈ a.quarters ∧ ∃ fy, fy ∈ futureYears cy years ∧
      quarterPointNaT a cm t n qh.1 qh.2 fy = some x := by
  simp only [quarterlyForecastsNaT, List.mem_flatMap] at hx
  rcases hx with ⟨qh, hqh, hx⟩
  by_cases he : qh.2.isEmpty
  · rw [if_pos he] at hx
    simp at hx
  · rw [if_neg he] at hx
    rcases List.mem_filterMap.mp hx with ⟨fy, hfy, hpt⟩
    exact ⟨qh, hqh, fy, hfy, hpt⟩

lemma quarterPointNaT_mem (a : Analysis) (cy cm : Int) (years : Nat)
    (t n : String) (q : Int) (h : List Row) (fy : Int) (x : FRec)
    (hmem : (q, h) ∈ a.quarters) (hne : h ≠ []) (hfy : fy ∈ futureYears cy years)
    (hpt : quarterPointNaT a cm t n q h fy = some x) :
    x ∈ quarterlyForecastsNaT a cy cm years t n := by
  rw [quarterlyForecastsNaT, List.mem_flatMap]
  refine ⟨(q, h), hmem, ?_⟩
  rw [if_neg (by simpa using hne)]
  exact List.mem_filterMap.mpr ⟨fy, hfy, hpt⟩

/-- Counterexample to C3 as stated: on `c3rows` a SITE_FORECAST record keyed
(2026, 2) with amount 99 and no record date exists, yet the quarterly-history
strategy emits no record at all for (2026, Q2): the stored missing date is
pandas `NaT`, truthy at line 1059, so the site branch is taken, `strftime`
raises on `NaT` at line 1095 and the handler at line 1107 skips the data
point.  In particular no emitted record carries the site amount and date,
nor anything else, for that (year, quarter); the single emitted record is
the computed one for 2025. -/
theorem C3_counterexample :
    lookupKey (analyze (2024 - 3) c3rows).siteForecasts (2026, 2) =
      some (⟨"S", "S Co", none, 99, some 2026, some 2, 1⟩ : Row) ∧
    ((quarterlyForecastsNaT (analyze (2024 - 3) c3rows) 2024 6 2 "S" "S Co").filter
      (fun x => x.year == some 2026 && x.quarter == some 2)).length = 0 ∧
    (quarterlyForecastsNaT (analyze (2024 - 3) c3rows) 2024 6 2 "S" "S Co").length
      = 1 := by
  refine ⟨by decide, by decide, by decide⟩

/-- Claim C3 (amended): under the quarterly-history strategy, a SITE_FORECAST
record keyed (future year, quarter) overrides the computed values exactly
when it carries a record date: then every emitted record for that (quarter,
year) takes the site record's date and amount verbatim, and one such record
is emitted for every stored quarter.  When the keyed site record has no
record date, the strategy emits no record at all for that (quarter, year):
the data point is skipped through the caught `strftime` failure on the
truthy `NaT` date. -/
theorem C3_amended_site_override (ym cy cm : Int) (years : Nat) (t n : String)
    (rows : List Row) (q fy : Int) (sf : Row)
    (hlook : lookupKey (analyze ym rows).siteForecasts (fy, q) = some sf) :
    (∀ sdt : Date, sf.recordDate = some sdt →
      (∀ x ∈ quarterlyForecastsNaT (analyze ym rows) cy cm years t n,
        x.quarter = some q → x.year = some fy →
        x.recordDate = some sdt ∧ x.amount = sf.amount) ∧
      (∀ h : List Row, (q, h) ∈ (analyze ym rows).quarters → h ≠ [] →
        fy ∈ futureYears cy years →
        ∃ x ∈ quarterlyForecastsNaT (analyze ym rows) cy cm years t n,
          x.quarter = some q ∧ x.year = some fy ∧
          x.recordDate = some sdt ∧ x.amount = sf.amount)) ∧
    (sf.recordDate = none →
      ∀ x ∈ quarterlyForecastsNaT (analyze ym rows) cy cm years t n,
        ¬(x.quarter = some q ∧ x.year = some fy)) := by
  constructor
  · intro sdt hd
    constructor
    · intro x hx hxq hxy
      rcases mem_quarterlyForecastsNaT _ cy cm years t n x hx with
        ⟨qh, hqh, fy2, hfy2, hpt⟩
      have hf := quarterPointNaT_fields (analyze ym rows) cm t n qh.1 qh.2 fy2 x hpt
      have h1 : qh.1 = q := Option.some.inj (hf.1.symm.trans hxq)
      have h2 : fy2 = fy := Option.some.inj (hf.2.symm.trans hxy)
      have hlook2 : lookupKey (analyze ym rows).siteForecasts (fy2, qh.1) =
          some sf := by
        rw [h1, h2]
        exact hlook
      have hsite := quarterPointNaT_site (analyze ym rows) cm t n qh.1 qh.2 fy2
        sf sdt hlook2 hd
      rw [hsite] at hpt
      have hx2 := Option.some.inj hpt
      subst hx2
      simp [mkForecast]
    · intro h hmem hne hfy
      have hsite := quarterPointNaT_site (analyze ym rows) cm t n q h fy sf sdt
        hlook hd
      refine ⟨mkForecast t n sdt sf.amount fy (some q) quarterlyLabel,
        quarterPointNaT_mem (analyze ym rows) cy cm years t n q h fy _ hmem hne
          hfy hsite, ?_, ?_, ?_, ?_⟩ <;> simp [mkForecast]
  · intro hd x hx hc
    rcases mem_quarterlyForecastsNaT _ cy cm years t n x hx with
      ⟨qh, hqh, fy2, hfy2, hpt⟩
    have hf := quarterPointNaT_fields (analyze ym rows) cm t n qh.1 qh.2 fy2 x hpt
    have h1 : qh.1 = q := Option.some.inj (hf.1.symm.trans hc.1)
    have h2 : fy2 = fy := Option.some.inj (hf.2.symm.trans hc.2)
    have hskip := quarterPointNaT_skip (analyze ym rows) cm t n qh.1 qh.2 fy2 sf
      (by rw [h1, h2]; exact hlook) hd
    rw [hskip] at hpt
    exact Option.noConfusion hpt

/-- Witness for the amended C3: a site forecast keyed (2026, 2) that carries
a record date, on the scenario `c3vrows`. -/
theorem C3_amended_site_override_witness :
    lookupKey (analyze 2021 c3vrows).siteForecasts (2026, 2) =
      some (⟨"V", "V Co", some ⟨2026, 5, 18⟩, 99, some 2026, some 2, 1⟩ : Row) ∧
    ((∀ sdt : Date,
        (⟨"V", "V Co", some ⟨2026, 5, 18⟩, 99, some 2026, some 2, 1⟩ : Row).recordDate
          = some sdt →
        (∀ x ∈ quarterlyForecastsNaT (analyze 2021 c3vrows) 2024 6 2 "V" "V Co",
          x.quarter = some 2 → x.year = some 2026 →
          x.recordDate = some sdt ∧
          x.amount =
            (⟨"V", "V Co", some ⟨2026, 5, 18⟩, 99, some 2026, some 2, 1⟩ : Row).amount) ∧
        (∀ h : List Row, ((2 : Int), h) ∈ (analyze 2021 c3vrows).quarters →
          h ≠ [] → (2026 : Int) ∈ futureYears 2024 2 →
          ∃ x ∈ quarterlyForecastsNaT (analyze 2021 c3vrows) 2024 6 2 "V" "V Co",
            x.quarter = some 2 ∧ x.year = some 2026 ∧
            x.recordDate = some sdt ∧
            x.amount =
              (⟨"V", "V Co", some ⟨2026, 5, 18⟩, 99, some 2026, some 2, 1⟩ : Row).amount)) ∧
      ((⟨"V", "V Co", some ⟨2026, 5, 18⟩, 99, some 2026, some 2, 1⟩ : Row).recordDate
          = none →
        ∀ x ∈ quarterlyForecastsNaT (analyze 2021 c3vrows) 2024 6 2 "V" "V Co",
          ¬(x.quarter = some 2 ∧ x.year = some 2026))) :=
  ⟨by decide,
   C3_amended_site_override 2021 2024 6 2 "V" "V Co" c3vrows 2 2026
     (⟨"V", "V Co", some ⟨2026, 5, 18⟩, 99, some 2026, some 2, 1⟩ : Row)
     (by decide)⟩

/-! ### Claim C8: the merged output ordering -/

lemma dateLeB_total (o1 o2 : Option Date) :
    dateLeB o1 o2 = true ∨ dateLeB o2 o1 = true := by
  cases o1 with
  | none =>
    cases o2 with
    | none => left; rfl
    | some b => right; rfl
  | some a =>
    cases o2 with
    | none => left; rfl
    | some b =>
      simp only [dateLeB, decide_eq_true_eq]
      omega

lemma dateLeB_trans : ∀ o1 o2 o3 : Option Date, dateLeB o1 o2 = true →
    dateLeB o2 o3 = true → dateLeB o1 o3 = true
  | none, none, _, _, h2 => h2
  | none, some _, _, h1, _ => absurd h1 (by simp [dateLeB])
  | some _, _, none, _, _ => rfl
  | some _, none, some _, _, h2 => absurd h2 (by simp [dateLeB])
  | some a, some b, some c, h1, h2 => by
    simp only [dateLeB, decide_eq_true_eq] at h1 h2 ⊢
    omega

lemma recLeB_total (x z : FRec) : recLeB x z = true ∨ recLeB z x = true := by
  by_cases h : x.ticker = z.ticker
  · rw [recLeB, if_pos h, recLeB, if_pos h.symm]
    exact dateLeB_total _ _
  · rw [recLeB, if_neg h, recLeB, if_neg (Ne.symm h)]
    rcases lt_or_gt_of_ne h with hlt | hgt
    · left
      exact decide_eq_true hlt
    · right
      exact decide_eq_true hgt

lemma recLeB_trans {x z w : FRec} (h1 : recLeB x z = true)
    (h2 : recLeB z w = true) : recLeB x w = true := by
  by_cases hxz : x.ticker = z.ticker <;> by_cases hzw : z.ticker = w.ticker
  · rw [recLeB, if_pos hxz] at h1
    rw [recLeB, if_pos hzw] at h2
    rw [recLeB, if_pos (hxz.trans hzw)]
    exact dateLeB_trans _ _ _ h1 h2
  · rw [recLeB, if_neg hzw] at h2
    rw [recLeB, if_neg (show x.ticker ≠ w.ticker by rw [hxz]; exact hzw), hxz]
    exact h2
  · rw [recLeB, if_neg hxz] at h1
    rw [recLeB, if_neg (show x.ticker ≠ w.ticker by rw [hzw] at hxz; exact hxz)]
    rw [← hzw]
    exact h1
  · rw [recLeB, if_neg hxz, decide_eq_true_eq] at h1
    rw [recLeB, if_neg hzw, decide_eq_true_eq] at h2
    have hlt := lt_trans h1 h2
    rw [recLeB, if_neg (ne_of_lt hlt)]
    exact decide_eq_true hlt

lemma mem_dedupKeep {α : Type} [DecidableEq α] (l : List α) (x : α) :
    x ∈ dedupKeep l ↔ x ∈ l := by
  rw [dedupKeep]
  suffices h : ∀ acc : List α,
      (x ∈ l.foldl (fun acc y => if y ∈ acc then acc else acc ++ [y]) acc ↔
        x ∈ acc ∨ x ∈ l) by
    simpa using h []
  induction l with
  | nil => intro acc; simp
  | cons a t ih =>
    intro acc
    rw [List.foldl_cons]
    by_cases ha : a ∈ acc
    · rw [if_pos ha, ih]
      constructor
      · rintro (h | h)
        · exact Or.inl h
        · exact Or.inr (List.mem_cons_of_mem _ h)
      · rintro (h | h)
        · exact Or.inl h
        · rcases List.mem_cons.mp h with rfl | h2
          · exact Or.inl ha
          · exact Or.inr h2
    · rw [if_neg ha, ih]
      simp only [List.mem_append, List.mem_singleton, List.mem_cons]
      tauto

lemma sortLe_mem {α : Type} (le : α → α → Bool) (l : List α) (x : α) :
    x ∈ sortLe le l ↔ x ∈ l :=
  (sortLe_perm le l).mem_iff

lemma forecastAll_ne_nil (cy cm : Int) (years : Nat) (historyYears : Int)
    (rows : List Row) (h : rows ≠ []) (hy : 0 < years) :
    forecastAll cy cm years historyYears rows ≠ [] := by
  obtain ⟨r, hr⟩ := List.exists_mem_of_length_pos (List.length_pos.mpr h)
  have ht : r.ticker ∈ tickersOf rows := by
    rw [tickersOf, sortLe_mem, mem_dedupKeep]
    exact List.mem_map_of_mem _ hr
  obtain ⟨x, hx⟩ := List.exists_mem_of_length_pos
    (forecastTicker_length_pos cy cm years historyYears r.ticker
      (groupName (groupOf rows r.ticker)) (groupOf rows r.ticker) hy)
  exact List.ne_nil_of_mem (List.mem_flatMap.mpr ⟨r.ticker, ht, hx⟩)

/-- Claim C8: the merged output is a permutation of historical-plus-forecast
records, sorted by ticker ascending then record date ascending, undated
records after all dated records of the same ticker, and the relative order
of the undated records of one ticker is their insertion order (the sort is
stable). -/
theorem C8_merge_sorted (cy cm : Int) (years : Nat) (historyYears : Int)
    (rows : List Row) (hrows : rows ≠ []) (hy : 0 < years) :
    (forecastDividends cy cm years historyYears rows).Perm
      (rows.map histRec ++ forecastAll cy cm years historyYears rows) ∧
    (forecastDividends cy cm years historyYears rows).Pairwise
      (fun x z => recLeB x z = true) ∧
    (forecastDividends cy cm years historyYears rows).Pairwise
      (fun x z => ¬(x.ticker = z.ticker ∧ x.recordDate = none ∧
        z.recordDate ≠ none)) ∧
    (∀ t : String,
      (forecastDividends cy cm years historyYears rows).filter
        (fun x => x.ticker == t && x.recordDate.isNone) =
      (rows.map histRec ++ forecastAll cy cm years historyYears rows).filter
        (fun x => x.ticker == t && x.recordDate.isNone)) := by
  have hfc := forecastAll_ne_nil cy cm years historyYears rows hrows hy
  have hout : forecastDividends cy cm years historyYears rows =
      sortRecs (rows.map histRec ++ forecastAll cy cm years historyYears rows) := by
    rw [forecastDividends, if_neg (by simpa using hfc)]
  rw [hout, sortRecs]
  have htot : ∀ a b : FRec, recLeB a b = true ∨ recLeB b a = true := recLeB_total
  have htrans : ∀ {a b c : FRec},
      recLeB a b = true → recLeB b c = true → recLeB a c = true :=
    fun h1 h2 => recLeB_trans h1 h2
  refine ⟨sortLe_perm recLeB _, sortLe_pairwise recLeB htot htrans _, ?_, ?_⟩
  · refine (sortLe_pairwise recLeB htot htrans _).imp ?_
    intro a b hab hc
    rcases hc with ⟨hT, hN, hS⟩
    rw [recLeB, if_pos hT, hN] at hab
    cases hd : b.recordDate with
    | none => exact hS hd
    | some dd =>
      rw [hd] at hab
      exact absurd hab (by simp [dateLeB])
  · intro t
    refine filter_sortLe recLeB _ htot htrans ?_ _
    intro x y hx hy2
    simp only [Bool.and_eq_true, beq_iff_eq, Option.isNone_iff_eq_none] at hx hy2
    rw [recLeB, if_pos (hx.1.trans hy2.1.symm), hx.2, hy2.2]
    rfl

/-- Witness for C8 on a one-row dataset with horizon 1. -/
theorem C8_merge_sorted_witness :
    ([(⟨"M", "M Co", some ⟨2023, 5, 10⟩, 5, some 2023, some 2, 0⟩ : Row)] ≠
        ([] : List Row) ∧ (0 : Nat) < 1) ∧
    ((forecastDividends 2024 6 1 3
        [(⟨"M", "M Co", some ⟨2023, 5, 10⟩, 5, some 2023, some 2, 0⟩ : Row)]).Perm
      ([(⟨"M", "M Co", some ⟨2023, 5, 10⟩, 5, some 2023, some 2, 0⟩ : Row)].map histRec ++
        forecastAll 2024 6 1 3
          [(⟨"M", "M Co", some ⟨2023, 5, 10⟩, 5, some 2023, some 2, 0⟩ : Row)]) ∧
    (forecastDividends 2024 6 1 3
        [(⟨"M", "M Co", some ⟨2023, 5, 10⟩, 5, some 2023, some 2, 0⟩ : Row)]).Pairwise
      (fun x z => recLeB x z = true) ∧
    (forecastDividends 2024 6 1 3
        [(⟨"M", "M Co", some ⟨2023, 5, 10⟩, 5, some 2023, some 2, 0⟩ : Row)]).Pairwise
      (fun x z => ¬(x.ticker = z.ticker ∧ x.recordDate = none ∧
        z.recordDate ≠ none)) ∧
    (∀ t : String,
      (forecastDividends 2024 6 1 3
          [(⟨"M", "M Co", some ⟨2023, 5, 10⟩, 5, some 2023, some 2, 0⟩ : Row)]).filter
        (fun x => x.ticker == t && x.recordDate.isNone) =
      ([(⟨"M", "M Co", some ⟨2023, 5, 10⟩, 5, some 2023, some 2, 0⟩ : Row)].map histRec ++
        forecastAll 2024 6 1 3
          [(⟨"M", "M Co", some ⟨2023, 5, 10⟩, 5, some 2023, some 2, 0⟩ : Row)]).filter
        (fun x => x.ticker == t && x.recordDate.isNone))) :=
  ⟨⟨by decide, by decide⟩,
   C8_merge_sorted 2024 6 1 3 _ (by decide) (by decide)⟩

/-! ### Claim C9: the historical dataset is untouched -/

/-- Claim C9: the engine is pure over the cleaned history — the merged output
contains every historical record, projected with its ticker, date, amount,
year, quarter and provenance code unchanged, and every record not coming
from the history is a freshly created forecast record with provenance code
2. -/
theorem C9_frame (cy cm : Int) (years : Nat) (historyYears : Int)
    (rows : List Row) :
    (∀ r ∈ rows, histRec r ∈ forecastDividends cy cm years historyYears rows) ∧
    (∀ x ∈ forecastDividends cy cm years historyYears rows,
      x ∈ rows.map histRec ∨ x.forecastType = 2) ∧
    (∀ r ∈ rows, (histRec r).ticker = r.ticker ∧
      (histRec r).recordDate = r.recordDate ∧ (histRec r).amount = r.amount ∧
      (histRec r).year = r.year ∧ (histRec r).quarter = r.quarter ∧
      (histRec r).forecastType = r.forecastType) := by
  have hiff : ∀ x : FRec, x ∈ forecastDividends cy cm years historyYears rows ↔
      x ∈ rows.map histRec ++ forecastAll cy cm years historyYears rows := by
    intro x
    rw [forecastDividends]
    by_cases he : (forecastAll cy cm years historyYears rows).isEmpty
    · rw [if_pos he]
      have hnil : forecastAll cy cm years historyYears rows = [] := by simpa using he
      simp [hnil]
    · rw [if_neg he]
      exact (sortLe_perm recLeB _).mem_iff
  refine ⟨?_, ?_, ?_⟩
  · intro r hr
    rw [hiff]
    exact List.mem_append_left _ (List.mem_map_of_mem _ hr)
  · intro x hx
    rw [hiff] at hx
    rcases List.mem_append.mp hx with hx | hx
    · exact Or.inl hx
    · right
      rcases List.mem_flatMap.mp hx with ⟨t, _, hx2⟩
      exact (forecastTicker_mem_fields cy cm years historyYears t
        (groupName (groupOf rows t)) (groupOf rows t) x hx2).1
  · intro r _
    exact ⟨rfl, rfl, rfl, rfl, rfl, rfl⟩
